import Mathlib

/-! Shallow embedding of the i18n batch-translation pipeline of this
    repository (scripts/i18n-translate.py, scripts/i18n-translate-ollama.py,
    scripts/i18n-workflow.py).  Python strings are modelled as Lean strings,
    that is lists of Unicode code points, which matches Python semantics;
    Python dicts used as key-value stores are modelled as association
    lists with distinct keys.  Whitespace for str.strip and the regex
    whitespace class is modelled as the ASCII whitespace characters,
    which covers every string the pipeline handles. -/

/-- The unit of work: one source-string record of a translation job.
    Mirrors the JSON objects with fields key, params, translation; the
    context and file fields are opaque to all modelled code paths.  An
    absent or null translation is modelled as the empty string, matching
    the falsiness test used by the scripts on t.get of the field. -/
structure Item where
  key : String
  params : List String
  translation : String
deriving DecidableEq

/-- The ASCII whitespace class of Python str.strip and of the regex
    whitespace class. -/
def isPyWs (c : Char) : Bool :=
  c == ' ' || c == '\t' || c == '\n' || c == '\r' || c == '\x0b' || c == '\x0c'

/-- Python str.strip on a list of characters. -/
def pyStripL (cs : List Char) : List Char :=
  ((cs.dropWhile isPyWs).reverse.dropWhile isPyWs).reverse

/-- Python str.strip on strings. -/
def pyStrip (s : String) : String := ⟨pyStripL s.data⟩

/-- Python substring membership test: needle occurs inside hay. -/
def strContainsL (hay needle : List Char) : Bool :=
  match hay with
  | [] => needle.isEmpty
  | c :: t => needle.isPrefixOf (c :: t) || strContainsL t needle

/-- Python substring membership test on strings. -/
def strContains (hay needle : String) : Bool := strContainsL hay.data needle.data

/-- The placeholder token written for a parameter name p: an opening
    brace, the name, a closing brace. -/
def phL (p : String) : List Char := '{' :: (p.data ++ ['}'])

/-- re.findall of the placeholder-shaped pattern: an opening brace, one
    or more characters other than a closing brace, a closing brace; the
    tokens are collected scanning left to right without overlap, exactly
    as the regex engine does.  Every recursive call strictly shortens the
    scanned list, so a fuel equal to the length of the input always
    suffices and the zero fuel branch is never reached. -/
def findPhFuel : Nat → List Char → List (List Char)
  | 0, _ => []
  | _ + 1, [] => []
  | fuel + 1, c :: cs =>
    if c = '{' then
      let body := cs.takeWhile (fun d => d != '}')
      if body.isEmpty then findPhFuel fuel cs
      else
        match cs.drop body.length with
        | '}' :: rest => ('{' :: (body ++ ['}'])) :: findPhFuel fuel rest
        | _ => findPhFuel fuel cs
    else findPhFuel fuel cs

/-- The placeholder-shaped tokens of a string, in scan order. -/
def findPh (cs : List Char) : List (List Char) := findPhFuel cs.length cs

/-- Python startswith q and endswith q for a single character q; for a
    one-character string both hold, exactly as in Python. -/
def startsEndsWith (q : Char) (cs : List Char) : Bool :=
  match cs with
  | [] => false
  | c :: rest => c == q && ((c :: rest).getLast? == some q)

/-- Python slice s from one to minus one. -/
def dropEnds (cs : List Char) : List Char := (cs.drop 1).dropLast

/-- One conditional quote-unwrapping layer: the slice from one to minus
    one when the string starts and ends with the quote character q. -/
def stripWrap (q : Char) (cs : List Char) : List Char :=
  if startsEndsWith q cs then dropEnds cs else cs

/-- Which rejection branch of validate_translation produced the failing
    (False, message) pair; the accepting (True, empty message) result is
    modelled as none. -/
inductive RejectReason where
  | emptyTranslation
  | missingParameter (placeholder : String)
  | newPlaceholders
  | suspiciousLength
deriving DecidableEq

/-- The trimmed, quote-unwrapped candidate the main validator checks
    against: strip, one double-quote unwrapping layer, then one
    single-quote unwrapping layer, applied in sequence as the source
    does. -/
def strippedCandidate (translation : String) : List Char :=
  stripWrap '\'' (stripWrap '"' (pyStripL translation.data))

/-- The trimmed, quote-unwrapped candidate of the ollama validator, which
    only unwraps double quotes. -/
def strippedCandidateOllama (translation : String) : List Char :=
  stripWrap '"' (pyStripL translation.data)

/-- validate_translation of i18n-translate.py, identical in
    i18n-workflow.py: empty check on the raw candidate, strip, one
    double-quote unwrap then one single-quote unwrap, missing-parameter
    scan in params order, new-placeholder scan, length sanity check.
    The float guard on the ratio of len of the candidate to
    max of len of the original and one, rejecting outside the closed
    interval from one tenth to five, is modelled by the exact rational
    comparisons five times the denominator less than the numerator and
    ten times the numerator less than the denominator. -/
def validate_translation (original translation : String) (params : List String) :
    Option RejectReason :=
  if pyStrip translation = "" then some .emptyTranslation
  else
    let t3 := strippedCandidate translation
    match params.find? (fun p =>
        strContainsL original.data (phL p) && !(strContainsL t3 (phL p))) with
    | some p => some (.missingParameter ⟨phL p⟩)
    | none =>
      if (findPh t3).any (fun q => !((findPh original.data).contains q)) then
        some .newPlaceholders
      else
        let lt := t3.length
        let lo := max original.length 1
        if 5 * lo < lt ∨ 10 * lt < lo then some .suspiciousLength
        else none

/-- validate_translation of i18n-translate-ollama.py: as the main variant
    but with only the double-quote unwrapping layer and with no
    new-placeholder scan at all. -/
def validate_translation_ollama (original translation : String) (params : List String) :
    Option RejectReason :=
  if pyStrip translation = "" then some .emptyTranslation
  else
    let t2 := strippedCandidateOllama translation
    match params.find? (fun p =>
        strContainsL original.data (phL p) && !(strContainsL t2 (phL p))) with
    | some p => some (.missingParameter ⟨phL p⟩)
    | none =>
      let lt := t2.length
      let lo := max original.length 1
      if 5 * lo < lt ∨ 10 * lt < lo then some .suspiciousLength
      else none

/-- Numeric value of a digit string. -/
def digitsToNat (ds : List Char) : Nat :=
  ds.foldl (fun n c => 10 * n + (c.toNat - '0'.toNat)) 0

/-- Match of the anchored pattern one or more digits, a dot, optional
    whitespace, a nonempty remainder, against an already stripped line;
    returns the claimed one-based number and the remainder group.  A line
    whose remainder is whitespace only is reported as no match: the regex
    match would then capture a lone whitespace character that the
    following strip reduces to the empty string, which the store guard
    discards, so the parse results are identical. -/
def matchNumbered (cs : List Char) : Option (Nat × List Char) :=
  let digits := cs.takeWhile Char.isDigit
  if digits.isEmpty then none
  else
    match cs.drop digits.length with
    | '.' :: rest =>
      let rem := rest.dropWhile isPyWs
      if rem.isEmpty then none else some (digitsToNat digits, rem)
    | _ => none

/-- Case-insensitive removal of a fixed lowercase keyword from the front
    of a character list. -/
def dropKeywordCI : List Char → List Char → Option (List Char)
  | [], cs => some cs
  | _ :: _, [] => none
  | k :: ks, c :: cs => if c.toLower == k then dropKeywordCI ks cs else none

/-- One attempted match, at the current scan position, of the stray-note
    pattern: optional whitespace, an opening square bracket, one of the
    keywords keep, manter, mantener, garder case-insensitively, any
    characters other than a closing square bracket, a closing square
    bracket.  Returns the remainder after the match. -/
def matchAnnotAt (cs : List Char) : Option (List Char) :=
  match cs.dropWhile isPyWs with
  | '[' :: r2 =>
    let afterKw :=
      match dropKeywordCI "keep".data r2 with
      | some r => some r
      | none =>
        match dropKeywordCI "manter".data r2 with
        | some r => some r
        | none =>
          match dropKeywordCI "mantener".data r2 with
          | some r => some r
          | none => dropKeywordCI "garder".data r2
    match afterKw with
    | none => none
    | some r3 =>
      match r3.dropWhile (fun d => d != ']') with
      | ']' :: r5 => some r5
      | _ => none
  | _ => none

/-- re.sub removal of every stray-note occurrence, scanning left to
    right; a successful match consumes at least three characters, so a
    fuel equal to the length of the input always suffices and the zero
    fuel branch is never reached. -/
def stripAnnotsFuel : Nat → List Char → List Char
  | 0, cs => cs
  | _ + 1, [] => []
  | fuel + 1, c :: cs =>
    match matchAnnotAt (c :: cs) with
    | some rest => stripAnnotsFuel fuel rest
    | none => c :: stripAnnotsFuel fuel cs

/-- re.sub removal of every stray-note occurrence from a string. -/
def stripAnnots (cs : List Char) : List Char := stripAnnotsFuel cs.length cs

/-- re.sub of the anchored pattern one or more digits, a dot, optional
    whitespace, with the empty replacement: removes one redundant leading
    numbering echo. -/
def stripLeadNum (cs : List Char) : List Char :=
  let digits := cs.takeWhile Char.isDigit
  if digits.isEmpty then cs
  else
    match cs.drop digits.length with
    | '.' :: rest => rest.dropWhile isPyWs
    | _ => cs

/-- Candidate normalization of parse_batch_response in i18n-translate.py
    and i18n-workflow.py: strip, one combined quote-unwrapping layer,
    stray-note removal, strip, leading-numbering removal. -/
def normalizeCand (raw : List Char) : List Char :=
  let t0 := pyStripL raw
  let t1 := if startsEndsWith '"' t0 || startsEndsWith '\'' t0 then dropEnds t0 else t0
  let t2 := stripAnnots t1
  let t3 := pyStripL t2
  stripLeadNum t3

/-- Candidate normalization of parse_batch_response in
    i18n-translate-ollama.py: as the main variant but with no re-strip
    between stray-note removal and leading-numbering removal. -/
def normalizeCandOllama (raw : List Char) : List Char :=
  let t0 := pyStripL raw
  let t1 := if startsEndsWith '"' t0 || startsEndsWith '\'' t0 then dropEnds t0 else t0
  let t2 := stripAnnots t1
  stripLeadNum t2

/-- The per-line work of parse_batch_response, parameterized by the
    candidate normalization: strip the line, match the numbered pattern,
    normalize the candidate.  Returns the zero-based slot and the
    candidate exactly when the line writes a slot, that is when the
    claimed number is at least one and the normalized candidate is
    nonempty; the in-range test on the slot is applied at the fold
    site. -/
def parseLineWith (norm : List Char → List Char) (line : List Char) :
    Option (Nat × String) :=
  match matchNumbered (pyStripL line) with
  | none => none
  | some (n, rem) =>
    let t := norm rem
    if n == 0 || t.isEmpty then none else some (n - 1, ⟨t⟩)

/-- The per-line work of parse_batch_response, main variant. -/
def parseLineMain (line : List Char) : Option (Nat × String) :=
  parseLineWith normalizeCand line

/-- The per-line work of parse_batch_response, ollama variant. -/
def parseLineOllama (line : List Char) : Option (Nat × String) :=
  parseLineWith normalizeCandOllama line

/-- Python split on the newline character, keeping empty pieces. -/
def splitOnNl : List Char → List (List Char)
  | [] => [[]]
  | c :: cs =>
    if c == '\n' then [] :: splitOnNl cs
    else
      match splitOnNl cs with
      | h :: t => (c :: h) :: t
      | [] => [[c]]

/-- Folding the parsed lines into the positional result list: results
    starts as count copies of none, then each matching line writes its
    slot when the zero-based index is in range; later lines overwrite
    earlier ones. -/
def parseLinesWith (pl : List Char → Option (Nat × String)) (lines : List (List Char))
    (count : Nat) : List (Option String) :=
  lines.foldl (fun results line =>
    match pl line with
    | some (idx, t) => if idx < count then results.set idx (some t) else results
    | none => results) (List.replicate count none)

/-- parse_batch_response of i18n-translate.py, identical in
    i18n-workflow.py: strip the response, split into lines, fold the
    per-line parse into the positional result list. -/
def parse_batch_response (response : String) (count : Nat) : List (Option String) :=
  parseLinesWith parseLineMain (splitOnNl (pyStripL response.data)) count

/-- parse_batch_response of i18n-translate-ollama.py. -/
def parse_batch_response_ollama (response : String) (count : Nat) : List (Option String) :=
  parseLinesWith parseLineOllama (splitOnNl (pyStripL response.data)) count

/-- The checkpoint condition of the translation loops: the cumulative
    processed count modulo the checkpoint interval is below the batch
    size. -/
def checkpointTrigger (total interval bsize : Nat) : Bool :=
  decide (total % interval < bsize)

/-- translate_batch of the pipeline scripts: the oracle interaction is
    abstracted into its outcome, the raw response text or a failure (an
    exception from the model call, or for the ollama variants a transport
    error, a non-success status or an empty response, which the driver
    treats alike); on failure the whole batch yields no candidate,
    otherwise the response is parsed positionally and each candidate is
    validated against its item. -/
def translate_batch (oracleResponse : Option String) (items : List Item) :
    List (Option String) :=
  if items.isEmpty then []
  else
    match oracleResponse with
    | none => List.replicate items.length none
    | some resp =>
      let cands := parse_batch_response resp items.length
      (items.zip cands).map (fun ic =>
        match ic.2 with
        | some t =>
          if validate_translation ic.1.key t ic.1.params = none then some t else none
        | none => none)

/-- The per-item outcome resolution of the driver loop: a validated batch
    candidate is recorded on the item; otherwise the item is retried
    through the single-item path, whose oracle call, cleaning and
    validation are abstracted into the function single; only when that
    also fails is the item reported as failed. -/
def resolveItem (single : Item → Option String) (item : Item) (cand : Option String) :
    Item × Bool :=
  match cand with
  | some t => ({ item with translation := t }, false)
  | none =>
    match single item with
    | some t => ({ item with translation := t }, false)
    | none => (item, true)

/-- One iteration of the batch loop: batch-translate, then resolve every
    item, collecting the updated items and the keys of failed items in
    batch order. -/
def processBatch (respond : List Item → Option String) (single : Item → Option String)
    (batch : List Item) : List Item × List String :=
  let step := (batch.zip (translate_batch (respond batch) batch)).map
    (fun ic => resolveItem single ic.1 ic.2)
  (step.map Prod.fst, (step.filter Prod.snd).map (fun r => r.1.key))

/-- The translation loop of the drivers over the pending list: batches of
    size bsize are cut in order; after each batch the cumulative processed
    count grows by the batch length and, when the checkpoint condition
    holds, the job data is snapshotted (processed items so far followed by
    the untouched remainder, which is the whole data for a job whose items
    all start pending).  Returns the processed items, the failed keys and
    the checkpoints as pairs of cumulative count and snapshot.  The batch
    size is positive in every reachable configuration, the Python range
    call raises on zero.  Every recursive call strictly shortens the
    pending list, so a fuel equal to its length always suffices and the
    zero fuel branch is never reached. -/
def runBatchesFuel (respond : List Item → Option String) (single : Item → Option String)
    (bsize interval : Nat) :
    Nat → List Item → List Item → List String → Nat →
    List Item × List String × List (Nat × List Item)
  | 0, pend, done, failedAcc, _ => (done ++ pend, failedAcc, [])
  | _ + 1, [], done, failedAcc, _ => (done, failedAcc, [])
  | fuel + 1, p :: ps, done, failedAcc, total =>
    let batch := p :: ps.take (bsize - 1)
    let rest := ps.drop (bsize - 1)
    let pb := processBatch respond single batch
    let done2 := done ++ pb.1
    let failed2 := failedAcc ++ pb.2
    let total2 := total + batch.length
    let r := runBatchesFuel respond single bsize interval fuel rest done2 failed2 total2
    (r.1, r.2.1,
      if checkpointTrigger total2 interval bsize then (total2, done2 ++ rest) :: r.2.2
      else r.2.2)

/-- The translation loop started on a pending list. -/
def runBatches (respond : List Item → Option String) (single : Item → Option String)
    (bsize interval : Nat) (pend : List Item) :
    List Item × List String × List (Nat × List Item) :=
  runBatchesFuel respond single bsize interval pend.length pend [] [] 0

/-- The pending test of the drivers: an item is pending exactly when its
    translation field is falsy. -/
def isPending (t : Item) : Bool := t.translation == ""

/-- Lookup in an association-list store, the first binding wins; a Python
    dict always has distinct keys. -/
def lookupStore {α : Type} : List (String × α) → String → Option α
  | [], _ => none
  | kv :: rest, key => if kv.1 = key then some kv.2 else lookupStore rest key

/-- The locale pre-filling of the drivers: an item with a falsy
    translation whose key is in the existing locale store receives the
    stored translation (the from-locale mark the code also sets is read
    by no modelled code path). -/
def prefillFromLocale (existing : List (String × String)) (t : Item) : Item :=
  if t.translation = "" then
    match lookupStore existing t.key with
    | some v => { t with translation := v }
    | none => t
  else t

/-- The pending-set computation of the drivers: without force mode and
    with a nonempty locale store the items are first pre-filled from the
    store; the items with falsy translation are then pending. -/
def computePending (force : Bool) (existing : List (String × String))
    (items : List Item) : List Item :=
  let prepared :=
    if force = false ∧ existing ≠ [] then items.map (prefillFromLocale existing)
    else items
  prepared.filter isPending

/-- Python dict assignment to an existing key: replace the value in
    place, keeping the position of the binding. -/
def setStore (store : List (String × String)) (key val : String) :
    List (String × String) :=
  store.map (fun kv => if kv.1 = key then (kv.1, val) else kv)

/-- The result of merge_translations: the merged store and the new,
    updated and unchanged counters. -/
structure MergeResult where
  store : List (String × String)
  newCount : Nat
  updatedCount : Nat
  unchangedCount : Nat
deriving DecidableEq

/-- One merge step of merge_translations in i18n-workflow.py: insert a
    fresh key counting new, overwrite a different value counting updated,
    otherwise count unchanged; the merged value is the stripped
    translation. -/
def mergeStep (acc : MergeResult) (item : Item) : MergeResult :=
  let tr := pyStrip item.translation
  match lookupStore acc.store item.key with
  | none =>
    { acc with store := acc.store ++ [(item.key, tr)], newCount := acc.newCount + 1 }
  | some v =>
    if v ≠ tr then
      { acc with store := setStore acc.store item.key tr,
                 updatedCount := acc.updatedCount + 1 }
    else
      { acc with unchangedCount := acc.unchangedCount + 1 }

/-- The valid-translation filter of merge_translations: a truthy
    translation field that is also truthy after stripping. -/
def validItems (translations : List Item) : List Item :=
  translations.filter (fun t => !(t.translation == "") && !(pyStrip t.translation == ""))

/-- Code-point order on keys, the order Python sorted uses on dict items;
    dict keys are distinct so the value component is never compared. -/
def keyLeB : List Char → List Char → Bool
  | [], _ => true
  | _ :: _, [] => false
  | c :: cs, d :: ds =>
    if c.toNat < d.toNat then true
    else if d.toNat < c.toNat then false
    else keyLeB cs ds

/-- The sorting relation on store entries. -/
def storeLe (a b : String × String) : Prop := keyLeB a.1.data b.1.data = true

instance : DecidableRel storeLe := fun _ _ => Bool.decEq _ _

instance : IsTotal (String × String) storeLe := by
  constructor
  intro a b
  show keyLeB a.1.data b.1.data = true ∨ keyLeB b.1.data a.1.data = true
  generalize a.1.data = x
  generalize b.1.data = y
  induction x generalizing y with
  | nil => left; rfl
  | cons c cs ih =>
    cases y with
    | nil => right; rfl
    | cons d ds =>
      by_cases h1 : c.toNat < d.toNat
      · left; simp [keyLeB, h1]
      · by_cases h2 : d.toNat < c.toNat
        · right; simp [keyLeB, h2]
        · simpa [keyLeB, h1, h2] using ih ds

instance : IsTrans (String × String) storeLe := by
  constructor
  intro a b c
  show keyLeB a.1.data b.1.data = true → keyLeB b.1.data c.1.data = true →
    keyLeB a.1.data c.1.data = true
  generalize a.1.data = x
  generalize b.1.data = y
  generalize c.1.data = z
  induction x generalizing y z with
  | nil => intro _ _; rfl
  | cons e es ih =>
    cases y with
    | nil => intro h; exact absurd h (by simp [keyLeB])
    | cons f fs =>
      cases z with
      | nil => intro _ h; exact absurd h (by simp [keyLeB])
      | cons g gs =>
        intro h1 h2
        simp only [keyLeB] at h1 h2 ⊢
        by_cases hef : e.toNat < f.toNat
        · by_cases hfg : f.toNat < g.toNat
          · have heg : e.toNat < g.toNat := by omega
            simp [heg]
          · by_cases hgf : g.toNat < f.toNat
            · simp [hfg, hgf] at h2
            · have heg : e.toNat < g.toNat := by omega
              simp [heg]
        · by_cases hfe : f.toNat < e.toNat
          · simp [hef, hfe] at h1
          · by_cases hfg : f.toNat < g.toNat
            · have heg : e.toNat < g.toNat := by omega
              simp [heg]
            · by_cases hgf : g.toNat < f.toNat
              · simp [hfg, hgf] at h2
              · have h3 : ¬ e.toNat < g.toNat := by omega
                have h4 : ¬ g.toNat < e.toNat := by omega
                simp only [if_neg hef, if_neg hfe] at h1
                simp only [if_neg hfg, if_neg hgf] at h2
                simp only [if_neg h3, if_neg h4]
                exact ih fs gs h1 h2

/-- merge_translations of i18n-workflow.py: the merge fold over the valid
    translations followed by the re-sort of the store by key; Python
    sorted is modelled as insertion sort with the code-point order on
    keys, which agrees with the Python tuple sort whenever keys are
    distinct. -/
def merge_translations (existing : List (String × String)) (translations : List Item) :
    MergeResult :=
  let r := (validItems translations).foldl mergeStep ⟨existing, 0, 0, 0⟩
  { r with store := List.insertionSort storeLe r.store }

/-- A language profile as the prompt builders consume it: the display
    name and the per-language style instructions. -/
structure LangProfile where
  name : String
  instructions : String
deriving DecidableEq

/-- A full entry of the language-configuration tables of
    i18n-translate-ollama.py and i18n-workflow.py. -/
structure LangConfig where
  name : String
  code : String
  instructions : String
deriving DecidableEq

/-- A full entry of the language-configuration table of
    i18n-translate.py, which also carries a form field. -/
structure LangConfigForm where
  name : String
  code : String
  form : String
  instructions : String
deriving DecidableEq

/-- Python str.upper, per code point. -/
def pyUpper (s : String) : String := ⟨s.data.map Char.toUpper⟩

/-- LANGUAGE_CONFIG of i18n-translate.py. -/
def LANGUAGE_CONFIG_translate : List (String × LangConfigForm) :=
  [("pt", ⟨"Portuguese (Brazilian)", "pt-BR", "informal \"você\"",
      "Use informal \"você\" form, not \"tu\". Be concise."⟩),
   ("es", ⟨"Spanish", "es", "informal \"tú\"",
      "Use informal \"tú\" form. Be concise."⟩),
   ("fr", ⟨"French", "fr", "informal \"tu\"",
      "Use informal \"tu\" form. Be concise."⟩),
   ("de", ⟨"German", "de", "informal \"du\"",
      "Use informal \"du\" form. Be concise."⟩)]

/-- LANGUAGE_CONFIG of i18n-translate-ollama.py. -/
def LANGUAGE_CONFIG_ollama : List (String × LangConfig) :=
  [("pt", ⟨"Portuguese (Brazilian)", "pt-BR",
      "Use informal \"você\" form, not \"tu\". Be concise."⟩),
   ("es", ⟨"Spanish", "es", "Use informal \"tú\" form. Be concise."⟩),
   ("fr", ⟨"French", "fr", "Use informal \"tu\" form. Be concise."⟩),
   ("de", ⟨"German", "de", "Use informal \"du\" form. Be concise."⟩)]

/-- LANGUAGE_CONFIG of i18n-workflow.py. -/
def LANGUAGE_CONFIG_workflow : List (String × LangConfig) :=
  [("pt", ⟨"Portuguese (Brazilian)", "pt-BR",
      "Use informal \"você\" form, not \"tu\". Be concise."⟩),
   ("es", ⟨"Spanish", "es", "Use informal \"tú\" form. Be concise."⟩),
   ("fr", ⟨"French", "fr", "Use informal \"tu\" form. Be concise."⟩),
   ("it", ⟨"Italian", "it", "Use informal \"tu\" form. Be concise."⟩),
   ("ro", ⟨"Romanian", "ro", "Use informal \"tu\" form. Be concise."⟩),
   ("de", ⟨"German", "de", "Use informal \"du\" form. Be concise."⟩),
   ("nl", ⟨"Dutch", "nl", "Use informal \"je\" form. Be concise."⟩),
   ("sv", ⟨"Swedish", "sv", "Use informal \"du\" form. Be concise."⟩),
   ("no", ⟨"Norwegian", "no", "Use informal \"du\" form. Be concise."⟩),
   ("da", ⟨"Danish", "da", "Use informal \"du\" form. Be concise."⟩),
   ("ru", ⟨"Russian", "ru", "Use informal \"ты\" form. Be concise."⟩),
   ("pl", ⟨"Polish", "pl", "Use informal \"ty\" form. Be concise."⟩),
   ("cs", ⟨"Czech", "cs", "Use informal \"ty\" form. Be concise."⟩),
   ("uk", ⟨"Ukrainian", "uk", "Use informal \"ти\" form. Be concise."⟩),
   ("ja", ⟨"Japanese", "ja", "Use polite form (です/ます). Be concise."⟩),
   ("ko", ⟨"Korean", "ko", "Use polite form (해요체). Be concise."⟩),
   ("zh", ⟨"Chinese (Simplified)", "zh-CN", "Use Simplified Chinese. Be concise."⟩),
   ("zh-tw", ⟨"Chinese (Traditional)", "zh-TW", "Use Traditional Chinese. Be concise."⟩),
   ("vi", ⟨"Vietnamese", "vi", "Use informal form. Be concise."⟩),
   ("th", ⟨"Thai", "th", "Use polite form. Be concise."⟩),
   ("id", ⟨"Indonesian", "id", "Use informal form. Be concise."⟩),
   ("ms", ⟨"Malay", "ms", "Use informal form. Be concise."⟩),
   ("hi", ⟨"Hindi", "hi", "Use informal \"तुम\" form. Be concise."⟩),
   ("tr", ⟨"Turkish", "tr", "Use informal \"sen\" form. Be concise."⟩),
   ("ar", ⟨"Arabic", "ar", "Use Modern Standard Arabic. Be concise."⟩),
   ("he", ⟨"Hebrew", "he", "Use informal form. Be concise."⟩),
   ("el", ⟨"Greek", "el", "Use informal \"εσύ\" form. Be concise."⟩),
   ("hu", ⟨"Hungarian", "hu", "Use informal \"te\" form. Be concise."⟩),
   ("fi", ⟨"Finnish", "fi", "Use informal \"sinä\" form. Be concise."⟩)]

/-- The dict get with default of i18n-translate.py prompt builders:
    LANGUAGE_CONFIG dot get of the language code with the fallback dict
    carrying the upper-cased code as name and generic instructions; the
    profile holds the two fields the prompt rendering reads. -/
def langProfileT (lang : String) : LangProfile :=
  match lookupStore LANGUAGE_CONFIG_translate lang with
  | some cfg => ⟨cfg.name, cfg.instructions⟩
  | none => ⟨pyUpper lang, "Be concise."⟩

/-- The dict get with default of the i18n-translate-ollama.py prompt
    builders. -/
def langProfileOllama (lang : String) : LangProfile :=
  match lookupStore LANGUAGE_CONFIG_ollama lang with
  | some cfg => ⟨cfg.name, cfg.instructions⟩
  | none => ⟨pyUpper lang, "Be concise."⟩

/-- get_language_config of i18n-workflow.py: the ValueError raised for an
    unknown code is modelled as the error case carrying the offending
    code. -/
def get_language_config (lang : String) : Except String LangConfig :=
  match lookupStore LANGUAGE_CONFIG_workflow lang with
  | some cfg => .ok cfg
  | none => .error lang

/-- The numbered list of keys all batch prompts embed, in input order,
    numbered from one. -/
def numberedKeys (items : List Item) : String :=
  String.intercalate "\n"
    ((items.enum).map (fun ia => Nat.repr (ia.1 + 1) ++ ". " ++ ia.2.key))

/-- build_batch_prompt of i18n-translate.py. -/
def build_batch_prompt_translate (items : List Item) (lang : String) : String :=
  let p := langProfileT lang
  "<start_of_turn>user\nTranslate these UI texts from English to " ++ p.name ++
  ".\n\nRULES:\n- Output ONLY numbered translations, one per line\n" ++
  "- Format exactly: \"1. translation\" (number, dot, space, translation only)\n" ++
  "- Keep \x7bplaceholders\x7d exactly as they appear - do NOT translate them\n" ++
  "- Keep slash commands (e.g., /help, /settings, /docs) exactly as they appear - do NOT translate them\n" ++
  "- Keep technical terms (API, CLI, JSON, URL, MCP, OAuth, YOLO) unchanged\n- " ++
  p.instructions ++ "\n- NO explanations, NO notes, ONLY translations\n\nTexts:\n" ++
  numberedKeys items ++ "\n<end_of_turn>\n<start_of_turn>model\n"

/-- build_prompt of i18n-translate.py (single string); the file argument
    is accepted and ignored exactly as in the source. -/
def build_prompt_translate (key context file : String) (params : List String)
    (lang : String) : String :=
  let p := langProfileT lang
  let paramWarning :=
    if params.isEmpty then ""
    else "\nIMPORTANT: Keep these placeholders exactly as-is: " ++
      String.intercalate ", " (params.map (fun q => "\x7b" ++ q ++ "\x7d"))
  "<start_of_turn>user\nTranslate this UI text from English to " ++ p.name ++
  ".\n\nRules:\n- Output ONLY the translation, nothing else\n" ++
  "- Keep placeholders like \x7bname\x7d, \x7bcount\x7d UNCHANGED\n" ++
  "- Keep slash commands (e.g., /help, /settings, /docs) exactly as they appear - do NOT translate them\n" ++
  "- Keep technical terms (API, CLI, JSON, URL, MCP, OAuth, YOLO) unchanged\n- " ++
  p.instructions ++ paramWarning ++ "\n\nContext: " ++ context ++ "\nText: " ++ key ++
  "\n<end_of_turn>\n<start_of_turn>model\n"

/-- build_batch_prompt of i18n-translate-ollama.py. -/
def build_batch_prompt_ollama (items : List Item) (lang : String) : String :=
  let p := langProfileOllama lang
  "Translate these UI texts from English to " ++ p.name ++
  ".\n\nRULES:\n- Output ONLY numbered translations, one per line\n" ++
  "- Preserve formatting (bullet lists, number lists, roman lists, etc) like the original, for example: \"1. original english text\" -> \"1. translated text\"(number, dot, space, translation only). Observe that the numbering list was preserved.\n" ++
  "- Keep \x7bplaceholders\x7d exactly as they appear - do NOT translate them\n" ++
  "- Keep slash commands (e.g., /help, /settings) exactly as they appear\n" ++
  "- Keep technical terms (API, CLI, JSON, URL, MCP, OAuth) unchanged\n- " ++
  p.instructions ++ "\n- NO explanations, NO notes, ONLY translations\n\nTexts:\n" ++
  numberedKeys items

/-- build_batch_prompt of i18n-workflow.py: the language lookup is the
    hard-failing get_language_config, so rendering propagates its error
    for an unknown code, before any oracle call. -/
def build_batch_prompt_workflow (items : List Item) (lang : String) :
    Except String String :=
  match get_language_config lang with
  | .error e => .error e
  | .ok cfg =>
    .ok ("Translate these UI texts from English to " ++ cfg.name ++
      ".\n\nRULES:\n- Output ONLY numbered translations, one per line\n" ++
      "- Format exactly: \"1. translation\" (number, dot, space, translation only)\n" ++
      "- Keep \x7bplaceholders\x7d exactly as they appear - do NOT translate them\n" ++
      "- Keep slash commands (e.g., /help, /settings, /docs) exactly as they appear - do NOT translate them\n" ++
      "- Keep technical terms (API, CLI, JSON, URL, MCP, OAuth, YOLO) unchanged\n" ++
      "- Keep leading symbols like \\n, ---, numbers (1., 2., 3.) exactly as they appear\n- " ++
      cfg.instructions ++ "\n- NO explanations, NO notes, ONLY translations\n\nTexts:\n" ++
      numberedKeys items)

/-- The 25 pending items of the checkpoint scenario, with distinct
    nonempty keys and no parameters. -/
def scenarioItems : List Item :=
  (List.range 25).map (fun i => ⟨⟨List.replicate (i + 1) 'a'⟩, [], ""⟩)

/-- A fully compliant oracle for the checkpoint scenario: for each batch
    it returns one numbered response line per item, translating key k to
    the letter T followed by k. -/
def scenarioRespond (batch : List Item) : Option String :=
  some (String.intercalate "\n"
    ((batch.enum).map (fun ia => Nat.repr (ia.1 + 1) ++ ". T" ++ ia.2.key)))


theorem sub_of_pre {l m : List Char} (h : l <+: m) : l <:+: m := by
  obtain ⟨t, ht⟩ := h
  exact ⟨[], t, by simpa using ht⟩

theorem sub_of_suf {l m : List Char} (h : l <:+ m) : l <:+: m := by
  obtain ⟨s, hs⟩ := h
  exact ⟨s, [], by simpa using hs⟩

theorem sub_trans {l m n : List Char} (h1 : l <:+: m) (h2 : m <:+: n) : l <:+: n := by
  obtain ⟨s1, t1, e1⟩ := h1
  obtain ⟨s2, t2, e2⟩ := h2
  refine ⟨s2 ++ s1, t1 ++ t2, ?_⟩
  rw [← e2, ← e1]
  simp

theorem strContainsL_iff (hay needle : List Char) :
    strContainsL hay needle = true ↔ needle <:+: hay := by
  induction hay with
  | nil =>
    simp [strContainsL, List.isEmpty_iff, List.infix_nil]
  | cons c t ih =>
    rw [strContainsL]
    simp only [Bool.or_eq_true, ih]
    rw [ List.isPrefixOf_iff_prefix, List.infix_cons_iff]

theorem pyStripL_sub (cs : List Char) : pyStripL cs <:+: cs := by
  unfold pyStripL
  have h1 : cs.dropWhile isPyWs <:+ cs := List.dropWhile_suffix isPyWs
  have h2 : (cs.dropWhile isPyWs).reverse.dropWhile isPyWs <:+
      (cs.dropWhile isPyWs).reverse := List.dropWhile_suffix isPyWs
  have h3 : ((cs.dropWhile isPyWs).reverse.dropWhile isPyWs).reverse <+:
      cs.dropWhile isPyWs := by
    have h4 := ( List.reverse_prefix).mpr h2
    simpa using h4
  exact sub_trans (sub_of_pre h3) (sub_of_suf h1)

theorem stripWrap_sub (q : Char) (cs : List Char) : stripWrap q cs <:+: cs := by
  unfold stripWrap
  split
  · exact sub_trans (sub_of_pre ( List.dropLast_prefix _))
      (sub_of_suf (List.drop_suffix 1 cs))
  · exact ⟨[], [], by simp⟩

theorem strippedCandidate_sub (translation : String) :
    strippedCandidate translation <:+: translation.data := by
  unfold strippedCandidate
  exact sub_trans (stripWrap_sub _ _)
    (sub_trans (stripWrap_sub _ _) (pyStripL_sub _))

theorem validate_none_no_missing (original translation : String) (params : List String)
    (hv : validate_translation original translation params = none) :
    params.find? (fun p =>
      strContainsL original.data (phL p) &&
      !(strContainsL (strippedCandidate translation) (phL p))) = none := by
  unfold validate_translation at hv
  by_cases h1 : pyStrip translation = ""
  · rw [if_pos h1] at hv
    cases hv
  · rw [if_neg h1] at hv
    simp only [] at hv
    cases hfind : params.find? (fun p =>
        strContainsL original.data (phL p) &&
        !(strContainsL (strippedCandidate translation) (phL p))) with
    | none => rfl
    | some q =>
      rw [hfind] at hv
      cases hv

/-- Claim C1 (amended): for every accepted item every placeholder of a
    params entry that occurs in the original also occurs verbatim in the
    accepted candidate; and whenever the candidate passes the emptiness
    check (it is not whitespace-only), the absence from the trimmed,
    quote-unwrapped candidate of a placeholder that occurs in the
    original makes validate_translation reject with MissingParameter
    naming the first such placeholder in params order.  The amendment
    adds the non-whitespace proviso: a whitespace-only candidate is
    rejected as EmptyTranslation even when placeholders are missing. -/
theorem C1_placeholders_preserved :
    (∀ (original translation : String) (params : List String),
        validate_translation original translation params = none →
        ∀ p ∈ params, strContains original ⟨phL p⟩ = true →
          strContains translation ⟨phL p⟩ = true)
    ∧ (∀ (original translation : String) (params : List String) (p : String),
        pyStrip translation ≠ "" →
        params.find? (fun p =>
          strContainsL original.data (phL p) &&
          !(strContainsL (strippedCandidate translation) (phL p))) = some p →
        validate_translation original translation params
          = some (.missingParameter ⟨phL p⟩)) := by
  constructor
  · intro original translation params hv p hp hin
    have hfind := validate_none_no_missing original translation params hv
    have hnp := List.find?_eq_none.mp hfind p hp
    simp only [Bool.and_eq_true, Bool.not_eq_true', Bool.not_and] at hnp
    have hc : strContainsL (strippedCandidate translation) (phL p) = true := by
      rcases Bool.eq_false_or_eq_true
          (strContainsL (strippedCandidate translation) (phL p)) with h | h
      · exact h
      · exact absurd ⟨hin, h⟩ hnp
    have hsub : phL p <:+: strippedCandidate translation :=
      (strContainsL_iff _ _).mp hc
    exact (strContainsL_iff _ _).mpr (sub_trans hsub (strippedCandidate_sub translation))
  · intro original translation params p h1 h2
    unfold validate_translation
    rw [if_neg h1]
    simp only [h2]

/-- Witness for C1: a concrete accepted candidate preserving its
    placeholder, and a concrete rejection naming the missing
    placeholder. -/
theorem C1_witness :
    strContains "Salut \x7bname\x7d" "\x7bname\x7d" = true
    ∧ validate_translation "Hi \x7bname\x7d" "Salut" ["name"]
        = some (.missingParameter "\x7bname\x7d") := by
  constructor
  · exact C1_placeholders_preserved.1 "Hi \x7bname\x7d" "Salut \x7bname\x7d" ["name"]
      (by decide) "name" (by decide) (by decide)
  · exact C1_placeholders_preserved.2 "Hi \x7bname\x7d" "Salut" ["name"] "name"
      (by decide) (by decide)

/-- Counterexample for C1 as stated: for the empty candidate, the
    placeholder of the params entry occurs in the original and is absent
    from the trimmed, quote-unwrapped candidate, yet validate_translation
    rejects with EmptyTranslation, not MissingParameter. -/
theorem C1_counterexample :
    strContains "Hi \x7bname\x7d" "\x7bname\x7d" = true
    ∧ strContainsL (strippedCandidate "") (phL "name") = false
    ∧ validate_translation "Hi \x7bname\x7d" "" ["name"] = some .emptyTranslation
    ∧ RejectReason.emptyTranslation ≠ .missingParameter "\x7bname\x7d" := by
  exact ⟨by decide, by decide, by decide, by decide⟩

/-- Claim C7 (amended): in the llama-cpp and unified-workflow variants,
    whose shared validator is validate_translation, a candidate that
    passes the emptiness and missing-parameter checks and contains a
    placeholder-shaped token absent from the original placeholder set is
    rejected with SpuriousPlaceholder, the new-placeholders branch; the
    amendment records that the ollama variant performs no such check and
    accepts such candidates. -/
theorem C7_spurious_rejected : ∀ (original translation : String) (params : List String),
    pyStrip translation ≠ "" →
    params.find? (fun p =>
      strContainsL original.data (phL p) &&
      !(strContainsL (strippedCandidate translation) (phL p))) = none →
    ((findPh (strippedCandidate translation)).any
      (fun q => !((findPh original.data).contains q))) = true →
    validate_translation original translation params = some .newPlaceholders := by
  intro original translation params h1 h2 h3
  unfold validate_translation
  rw [if_neg h1]
  simp only [h2, h3, if_true]

/-- Witness for C7: a concrete spurious-placeholder rejection by the main
    validator. -/
theorem C7_witness :
    validate_translation "Hello" "Hola \x7bx\x7d" [] = some .newPlaceholders :=
  C7_spurious_rejected "Hello" "Hola \x7bx\x7d" [] (by decide) (by decide) (by decide)

/-- Counterexample for C7 as stated: the ollama validator accepts a
    candidate carrying a placeholder-shaped token that the original does
    not have, so the rejection is not performed in every pipeline
    variant. -/
theorem C7_counterexample :
    validate_translation_ollama "Hello" "Hola \x7bx\x7d" [] = none
    ∧ strContainsL (strippedCandidateOllama "Hola \x7bx\x7d") (phL "x") = true
    ∧ (findPh "Hello".data).contains (phL "x") = false := by
  exact ⟨by decide, by decide, by decide⟩

/-- Claim C8 (amended): a candidate that is empty after trimming, that
    is empty or whitespace-only, is rejected with EmptyTranslation by
    both validators, and this check runs before every other one; the
    amendment records that quote-unwrapping happens only after the
    emptiness check, so a candidate that becomes empty only after
    quote-unwrapping, such as the two-character double-quote pair, is
    rejected by a later check, not as EmptyTranslation. -/
theorem C8_empty_first : ∀ (original translation : String) (params : List String),
    pyStrip translation = "" →
    validate_translation original translation params = some .emptyTranslation
    ∧ validate_translation_ollama original translation params = some .emptyTranslation := by
  intro original translation params h
  constructor
  · unfold validate_translation
    rw [if_pos h]
  · unfold validate_translation_ollama
    rw [if_pos h]

/-- Witness for C8: a concrete whitespace-only candidate rejected as
    EmptyTranslation by both validators. -/
theorem C8_witness :
    validate_translation "Hello" "   " ["p"] = some .emptyTranslation
    ∧ validate_translation_ollama "Hello" "   " ["p"] = some .emptyTranslation :=
  C8_empty_first "Hello" "   " ["p"] (by decide)

/-- Counterexample for C8 as stated: the two-character double-quote pair
    is nonempty after trimming but empty after quote-unwrapping, and the
    main validator rejects it with the length check, not with
    EmptyTranslation. -/
theorem C8_counterexample :
    pyStripL "\"\"".data ≠ []
    ∧ strippedCandidate "\"\"" = []
    ∧ validate_translation "Hello" "\"\"" [] = some .suspiciousLength
    ∧ RejectReason.suspiciousLength ≠ .emptyTranslation := by
  exact ⟨by decide, by decide, by decide, by decide⟩

theorem parseLinesWith_append_line (pl : List Char → Option (Nat × String))
    (lines : List (List Char)) (line : List Char) (count idx : Nat) (t : String)
    (h : pl line = some (idx, t)) (hidx : idx < count) :
    parseLinesWith pl (lines ++ [line]) count
      = (parseLinesWith pl lines count).set idx (some t) := by
  unfold parseLinesWith
  rw [List.foldl_append]
  simp [h, hidx]

/-- Claim C5: duplicate position claims resolve last-write-wins: a final
    line that produces a candidate for a slot overwrites whatever earlier
    lines put there, in both parse variants; in particular the response
    of two lines both numbered one parses, with expected count one, to
    the second candidate at position zero. -/
theorem C5_last_write_wins :
    (∀ (lines : List (List Char)) (line : List Char) (count idx : Nat) (t : String),
        parseLineMain line = some (idx, t) → idx < count →
        parseLinesWith parseLineMain (lines ++ [line]) count
          = (parseLinesWith parseLineMain lines count).set idx (some t))
    ∧ (∀ (lines : List (List Char)) (line : List Char) (count idx : Nat) (t : String),
        parseLineOllama line = some (idx, t) → idx < count →
        parseLinesWith parseLineOllama (lines ++ [line]) count
          = (parseLinesWith parseLineOllama lines count).set idx (some t))
    ∧ parse_batch_response "1. A\n1. B" 1 = [some "B"]
    ∧ parse_batch_response_ollama "1. A\n1. B" 1 = [some "B"] := by
  exact ⟨fun lines line count idx t h hidx =>
      parseLinesWith_append_line parseLineMain lines line count idx t h hidx,
    fun lines line count idx t h hidx =>
      parseLinesWith_append_line parseLineOllama lines line count idx t h hidx,
    by decide, by decide⟩

/-- Witness for C5: the concrete duplicate-index overwrite in both parse
    variants. -/
theorem C5_witness :
    parseLinesWith parseLineMain (["1. A".data] ++ ["1. B".data]) 1
        = (parseLinesWith parseLineMain ["1. A".data] 1).set 0 (some "B")
    ∧ parseLinesWith parseLineOllama (["1. A".data] ++ ["1. B".data]) 1
        = (parseLinesWith parseLineOllama ["1. A".data] 1).set 0 (some "B") := by
  exact ⟨C5_last_write_wins.1 ["1. A".data] "1. B".data 1 0 "B" (by decide) (by decide),
    C5_last_write_wins.2.1 ["1. A".data] "1. B".data 1 0 "B" (by decide) (by decide)⟩

/-- Claim C4: when the oracle call for a batch fails, translate_batch
    yields no candidate for every item of the batch, and the driver
    resolves each such item through the single-item retry: the item is
    reported failed exactly when the single retry also fails, and an
    item holding a batch candidate is never reported failed. -/
theorem C4_transport_failure_retries :
    ∀ (single : Item → Option String) (items : List Item) (it : Item) (t : String),
      translate_batch none items = List.replicate items.length none
      ∧ ((resolveItem single it none).2 = true ↔ single it = none)
      ∧ (resolveItem single it (some t)).2 = false := by
  intro single items it t
  refine ⟨?_, ?_, rfl⟩
  · cases items with
    | nil => rfl
    | cons a l => rfl
  · unfold resolveItem
    cases h : single it with
    | none => simp
    | some v => simp

theorem parseLinesWith_length (pl : List Char → Option (Nat × String))
    (lines : List (List Char)) (count : Nat) :
    (parseLinesWith pl lines count).length = count := by
  unfold parseLinesWith
  suffices h : ∀ init : List (Option String),
      (lines.foldl (fun results line => match pl line with
        | some (idx, t) => if idx < count then results.set idx (some t) else results
        | none => results) init).length = init.length by
    simpa using h (List.replicate count none)
  intro init
  induction lines generalizing init with
  | nil => rfl
  | cons l ls ih =>
    rw [List.foldl_cons, ih]
    cases h : pl l with
    | none => simp
    | some it =>
      obtain ⟨idx, t⟩ := it
      by_cases hidx : idx < count
      · simp [hidx, List.length_set]
      · simp [hidx]

theorem parseLineWith_ne_empty (norm : List Char → List Char) (line : List Char)
    (idx : Nat) (t : String) (h : parseLineWith norm line = some (idx, t)) : t ≠ "" := by
  unfold parseLineWith at h
  cases hm : matchNumbered (pyStripL line) with
  | none => rw [hm] at h; cases h
  | some nr =>
    rw [hm] at h
    obtain ⟨n, rem⟩ := nr
    simp only [] at h
    by_cases hg : (n == 0 || (norm rem).isEmpty) = true
    · rw [if_pos hg] at h; cases h
    · rw [if_neg hg] at h
      rw [Option.some.injEq, Prod.mk.injEq] at h
      obtain ⟨h1, h2⟩ := h
      subst h2
      intro hc
      have hdata : norm rem = [] := congrArg String.data hc
      simp [hdata] at hg

theorem parseLinesWith_entries (pl : List Char → Option (Nat × String))
    (hpl : ∀ line idx t, pl line = some (idx, t) → t ≠ "")
    (lines : List (List Char)) (count : Nat) :
    ∀ o ∈ parseLinesWith pl lines count, o ≠ some "" := by
  unfold parseLinesWith
  suffices h : ∀ init : List (Option String), (∀ o ∈ init, o ≠ some "") →
      ∀ o ∈ lines.foldl (fun results line => match pl line with
        | some (idx, t) => if idx < count then results.set idx (some t) else results
        | none => results) init, o ≠ some "" by
    refine h _ ?_
    intro o ho
    have := List.eq_of_mem_replicate ho
    simp [this]
  intro init hinit
  induction lines generalizing init with
  | nil => exact hinit
  | cons l ls ih =>
    rw [List.foldl_cons]
    apply ih
    cases h : pl l with
    | none => simpa using hinit
    | some it =>
      obtain ⟨idx, t⟩ := it
      by_cases hidx : idx < count
      · simp only [hidx, if_true]
        intro o ho
        rcases List.mem_or_eq_of_mem_set ho with hmem | rfl
        · exact hinit o hmem
        · have ht := hpl l idx t h
          simp [ht]
      · simpa [hidx] using hinit

/-- Claim C10: for every raw response and every count, both parse
    variants return a list of length exactly count in which each entry is
    none or a nonempty candidate: a matched line whose candidate
    normalizes to the empty string leaves its slot unwritten, so the
    batch path never presents an empty candidate to the validator. -/
theorem C10_parse_shape : ∀ (response : String) (count : Nat),
    (parse_batch_response response count).length = count
    ∧ (∀ o ∈ parse_batch_response response count, o ≠ some "")
    ∧ (parse_batch_response_ollama response count).length = count
    ∧ (∀ o ∈ parse_batch_response_ollama response count, o ≠ some "") := by
  intro response count
  refine ⟨parseLinesWith_length _ _ _, ?_, parseLinesWith_length _ _ _, ?_⟩
  · exact parseLinesWith_entries parseLineMain
      (fun line idx t h => parseLineWith_ne_empty normalizeCand line idx t h) _ _
  · exact parseLinesWith_entries parseLineOllama
      (fun line idx t h => parseLineWith_ne_empty normalizeCandOllama line idx t h) _ _

/-- Witness for C10: the shape facts evaluated at a concrete response
    with one matched line and one unclaimed slot. -/
theorem C10_witness :
    (parse_batch_response "1. A" 2).length = 2 ∧ some "A" ≠ (some "" : Option String) := by
  constructor
  · exact (C10_parse_shape "1. A" 2).1
  · exact (C10_parse_shape "1. A" 2).2.1 (some "A") (by decide)

set_option maxRecDepth 8000 in
/-- Claim C3: the checkpoint scenario.  For a job of 25 pending items
    with checkpoint interval 10 and batch size 10 under a compliant
    oracle, the driver saves checkpoints after cumulative counts 10 and
    20 (the modular trigger also fires after the final 25, which the
    scenario never reaches since it crashes after the second save); the
    snapshot saved at count 20 has exactly the last five items pending,
    so loading it and resuming reprocesses only those five items and the
    twenty items with nonempty translations are not re-sent; and the
    trigger is the condition cumulative count modulo interval below
    batch size, not an every-Kth-batch rule. -/
theorem C3_checkpoint_scenario :
    ((runBatches scenarioRespond (fun _ => none) 10 10 scenarioItems).2.2.map Prod.fst
        = [10, 20, 25])
    ∧ (((runBatches scenarioRespond (fun _ => none) 10 10 scenarioItems).2.2.get? 1).map
        (fun cp => cp.2.filter isPending) = some (scenarioItems.drop 20))
    ∧ (scenarioItems.drop 20).length = 5
    ∧ (runBatches scenarioRespond (fun _ => none) 10 10
        (scenarioItems.drop 20)).1.length = 5
    ∧ (runBatches scenarioRespond (fun _ => none) 10 10 (scenarioItems.drop 20)).2.1 = []
    ∧ ((runBatches scenarioRespond (fun _ => none) 10 10
        (scenarioItems.drop 20)).1.filter isPending = [])
    ∧ (∀ total interval bsize : Nat,
        checkpointTrigger total interval bsize = decide (total % interval < bsize)) := by
  refine ⟨?_, ?_, ?_, ?_, ?_, ?_, fun _ _ _ => rfl⟩
  · decide
  · decide
  · decide
  · decide
  · decide
  · decide

/-- Claim C6 (amended): only the unified workflow variant makes an
    unknown language code a hard error: its get_language_config fails for
    every code outside its table and its batch-prompt rendering
    propagates that error before any oracle call; the standalone
    llama-cpp and ollama scripts instead silently fall back to the
    generic profile carrying the upper-cased code and the generic
    instruction set. -/
theorem C6_language_lookup :
    (∀ lang : String, lookupStore LANGUAGE_CONFIG_workflow lang = none →
        get_language_config lang = .error lang
        ∧ ∀ items : List Item, build_batch_prompt_workflow items lang = .error lang)
    ∧ (∀ (lang : String) (cfg : LangConfig),
        lookupStore LANGUAGE_CONFIG_workflow lang = some cfg →
        get_language_config lang = .ok cfg)
    ∧ (∀ lang : String, lookupStore LANGUAGE_CONFIG_translate lang = none →
        langProfileT lang = ⟨pyUpper lang, "Be concise."⟩)
    ∧ (∀ lang : String, lookupStore LANGUAGE_CONFIG_ollama lang = none →
        langProfileOllama lang = ⟨pyUpper lang, "Be concise."⟩) := by
  refine ⟨?_, ?_, ?_, ?_⟩
  · intro lang h
    have hg : get_language_config lang = .error lang := by
      unfold get_language_config
      rw [h]
    refine ⟨hg, fun items => ?_⟩
    unfold build_batch_prompt_workflow
    rw [hg]
  · intro lang cfg h
    unfold get_language_config
    rw [h]
  · intro lang h
    unfold langProfileT
    rw [h]
  · intro lang h
    unfold langProfileOllama
    rw [h]

/-- Witness for C6: the behavior of all three variants at the concrete
    unknown code xx. -/
theorem C6_witness :
    get_language_config "xx" = .error "xx"
    ∧ build_batch_prompt_workflow [] "xx" = .error "xx"
    ∧ langProfileT "xx" = ⟨"XX", "Be concise."⟩
    ∧ langProfileOllama "xx" = ⟨"XX", "Be concise."⟩ := by
  refine ⟨(C6_language_lookup.1 "xx" (by decide)).1,
    (C6_language_lookup.1 "xx" (by decide)).2 [], ?_, ?_⟩
  · exact (C6_language_lookup.2.2.1 "xx" (by decide)).trans (by decide)
  · exact (C6_language_lookup.2.2.2 "xx" (by decide)).trans (by decide)

set_option maxRecDepth 8000 in
/-- Counterexample for C6 as stated: the llama-cpp and ollama variants
    render prompts for the unknown code xx with the silent generic
    fallback instead of raising any error, in both the batch and the
    single shapes. -/
theorem C6_counterexample :
    langProfileOllama "xx" = ⟨"XX", "Be concise."⟩
    ∧ langProfileT "xx" = ⟨"XX", "Be concise."⟩
    ∧ strContains (build_batch_prompt_ollama [⟨"Hello", [], ""⟩] "xx")
        "Be concise." = true
    ∧ strContains (build_prompt_translate "Hello" "UI text" "unknown" [] "xx")
        "Be concise." = true
    ∧ lookupStore LANGUAGE_CONFIG_ollama "xx" = none
    ∧ lookupStore LANGUAGE_CONFIG_translate "xx" = none := by
  exact ⟨by decide, by decide, by decide, by decide, by decide, by decide⟩

theorem mem_of_lookupStore_eq_some {α : Type} (s : List (String × α)) (k : String)
    (v : α) (h : lookupStore s k = some v) : (k, v) ∈ s := by
  induction s with
  | nil => cases h
  | cons kv rest ih =>
    unfold lookupStore at h
    by_cases hk : kv.1 = k
    · rw [if_pos hk] at h
      rw [Option.some.injEq] at h
      subst h
      subst hk
      simp
    · rw [if_neg hk] at h
      exact List.mem_cons_of_mem _ (ih h)

/-- Claim C9 (amended): force mode only disables the locale pre-filling.
    With force the pending set is exactly the items whose input
    translation is empty, so strings already translated in the locale
    store re-enter the pending set; without force an empty-translation
    item whose key is in the locale store (whose values are nonempty) is
    pre-filled and excluded; and an item whose translation is already
    nonempty in the input job never enters the pending set, with or
    without force. -/
theorem C9_force_semantics :
    (∀ (existing : List (String × String)) (items : List Item),
        computePending true existing items = items.filter isPending)
    ∧ (∀ (existing : List (String × String)) (items : List Item),
        (∀ kv ∈ existing, kv.2 ≠ "") →
        computePending false existing items
          = items.filter (fun t =>
              isPending t && (lookupStore existing t.key == none)))
    ∧ (∀ (force : Bool) (existing : List (String × String)) (items : List Item)
        (t : Item), t.translation ≠ "" →
        t ∉ computePending force existing items) := by
  refine ⟨?_, ?_, ?_⟩
  · intro existing items
    simp [computePending]
  · intro existing items hv
    unfold computePending
    by_cases hex : existing = []
    · subst hex
      rw [if_neg (by simp)]
      have hcong : ∀ t : Item,
          (isPending t && (lookupStore ([] : List (String × String)) t.key == none))
            = isPending t := by
        intro t
        simp [lookupStore]
      exact (List.filter_congr (fun t _ => hcong t)).symm
    · rw [if_pos ⟨rfl, hex⟩]
      induction items with
      | nil => rfl
      | cons t ts ih =>
        rw [List.map_cons]
        by_cases ht : t.translation = ""
        · cases hl : lookupStore existing t.key with
          | none =>
            have hpre : prefillFromLocale existing t = t := by
              unfold prefillFromLocale
              rw [if_pos ht, hl]
            rw [List.filter_cons, List.filter_cons, hpre, ih]
            simp [isPending, ht, hl]
          | some v =>
            have hvne : v ≠ "" :=
              hv (t.key, v) (mem_of_lookupStore_eq_some _ _ _ hl)
            have hpre : prefillFromLocale existing t = { t with translation := v } := by
              unfold prefillFromLocale
              rw [if_pos ht, hl]
            rw [List.filter_cons, List.filter_cons, hpre, ih]
            simp [isPending, ht, hl, hvne]
        · have hpre : prefillFromLocale existing t = t := by
            unfold prefillFromLocale
            rw [if_neg ht]
          rw [List.filter_cons, List.filter_cons, hpre, ih]
          simp [isPending, ht]
  · intro force existing items t ht hmem
    unfold computePending at hmem
    have hp := List.of_mem_filter hmem
    exact ht (by simpa [isPending] using hp)

/-- Witness for C9: concrete pending sets with and without force, and a
    concrete completed item kept out of the pending set. -/
theorem C9_witness :
    computePending true [("a", "x")] [⟨"a", [], ""⟩, ⟨"b", [], "done"⟩]
        = [⟨"a", [], ""⟩]
    ∧ computePending false [("a", "x")] [⟨"a", [], ""⟩, ⟨"b", [], ""⟩]
        = [⟨"b", [], ""⟩]
    ∧ (⟨"b", [], "done"⟩ : Item) ∉
        computePending false [("a", "x")] [⟨"b", [], "done"⟩] := by
  refine ⟨?_, ?_, ?_⟩
  · exact (C9_force_semantics.1 [("a", "x")] _).trans (by decide)
  · exact (C9_force_semantics.2.1 [("a", "x")] _ (by decide)).trans (by decide)
  · exact C9_force_semantics.2.2 false [("a", "x")] _ _ (by decide)

/-- Counterexample for C9 as stated: in force mode an item of the job
    whose translation field is already nonempty does not re-enter the
    pending set, contrary to the claim that every such item is
    re-translated. -/
theorem C9_counterexample :
    computePending true [("k", "v")] [⟨"k", [], "Bonjour"⟩] = []
    ∧ (⟨"k", [], "Bonjour"⟩ : Item) ∉
        computePending true [("k", "v")] [⟨"k", [], "Bonjour"⟩] := by
  exact ⟨by decide, by decide⟩

theorem lookupStore_none_iff {α : Type} (s : List (String × α)) (k : String) :
    lookupStore s k = none ↔ k ∉ s.map Prod.fst := by
  induction s with
  | nil => simp [lookupStore]
  | cons kv rest ih =>
    unfold lookupStore
    by_cases hk : kv.1 = k
    · simp [hk]
    · simp only [if_neg hk, List.map_cons, List.mem_cons, ih]
      constructor
      · intro h hc
        rcases hc with hc | hc
        · exact hk hc.symm
        · exact h hc
      · intro h hc
        exact h (Or.inr hc)

theorem lookupStore_append_fresh {α : Type} (s : List (String × α)) (k : String) (v : α)
    (h : lookupStore s k = none) : lookupStore (s ++ [(k, v)]) k = some v := by
  induction s with
  | nil => simp [lookupStore]
  | cons kv rest ih =>
    rw [List.cons_append]
    unfold lookupStore at h ⊢
    by_cases hk : kv.1 = k
    · rw [if_pos hk] at h
      cases h
    · rw [if_neg hk] at h ⊢
      exact ih h

theorem lookupStore_append_other {α : Type} (s : List (String × α)) (k k2 : String)
    (v : α) (h : k2 ≠ k) : lookupStore (s ++ [(k2, v)]) k = lookupStore s k := by
  induction s with
  | nil => simp [lookupStore, h]
  | cons kv rest ih =>
    rw [List.cons_append]
    unfold lookupStore
    by_cases hk : kv.1 = k
    · rw [if_pos hk, if_pos hk]
    · rw [if_neg hk, if_neg hk]
      exact ih

theorem lookupStore_set_self (s : List (String × String)) (k v w : String)
    (h : lookupStore s k = some w) : lookupStore (setStore s k v) k = some v := by
  induction s with
  | nil => cases h
  | cons kv rest ih =>
    unfold lookupStore at h
    by_cases hk : kv.1 = k
    · simp [setStore, lookupStore, hk]
    · rw [if_neg hk] at h
      simp only [setStore, List.map_cons, if_neg hk]
      unfold lookupStore
      rw [if_neg hk]
      exact ih h

theorem lookupStore_set_other (s : List (String × String)) (k k2 v : String)
    (h : k2 ≠ k) : lookupStore (setStore s k2 v) k = lookupStore s k := by
  induction s with
  | nil => rfl
  | cons kv rest ih =>
    by_cases hk2 : kv.1 = k2
    · have hne : kv.1 ≠ k := fun hc => h (hk2.symm.trans hc)
      simp only [setStore, List.map_cons, if_pos hk2]
      unfold lookupStore
      rw [if_neg hne, if_neg hne]
      exact ih
    · simp only [setStore, List.map_cons, if_neg hk2]
      unfold lookupStore
      by_cases hk : kv.1 = k
      · rw [if_pos hk, if_pos hk]
      · rw [if_neg hk, if_neg hk]
        exact ih

theorem setStore_keys (s : List (String × String)) (k v : String) :
    (setStore s k v).map Prod.fst = s.map Prod.fst := by
  unfold setStore
  rw [List.map_map]
  apply List.map_congr_left
  intro kv _
  by_cases hk : kv.1 = k
  · simp [hk]
  · simp [hk]

theorem setStore_length (s : List (String × String)) (k v : String) :
    (setStore s k v).length = s.length := by
  simp [setStore]

theorem mergeStep_binding (acc : MergeResult) (t : Item) :
    lookupStore (mergeStep acc t).store t.key = some (pyStrip t.translation) := by
  cases hl : lookupStore acc.store t.key with
  | none =>
    simp only [mergeStep, hl]
    exact lookupStore_append_fresh _ _ _ hl
  | some v =>
    by_cases hv : v ≠ pyStrip t.translation
    · simp only [mergeStep, hl, if_pos hv]
      exact lookupStore_set_self _ _ _ _ hl
    · simp only [mergeStep, hl, if_neg hv]
      push_neg at hv
      rw [hv]

theorem mergeStep_other (acc : MergeResult) (t : Item) (k : String) (h : t.key ≠ k) :
    lookupStore (mergeStep acc t).store k = lookupStore acc.store k := by
  cases hl : lookupStore acc.store t.key with
  | none =>
    simp only [mergeStep, hl]
    exact lookupStore_append_other _ _ _ _ h
  | some v =>
    by_cases hv : v ≠ pyStrip t.translation
    · simp only [mergeStep, hl, if_pos hv]
      exact lookupStore_set_other _ _ _ _ h
    · simp only [mergeStep, hl, if_neg hv]

theorem mergeStep_keys_sub (acc : MergeResult) (t : Item) (k : String)
    (h : k ∈ acc.store.map Prod.fst) :
    k ∈ (mergeStep acc t).store.map Prod.fst := by
  cases hl : lookupStore acc.store t.key with
  | none =>
    simp only [mergeStep, hl, List.map_append]
    exact List.mem_append_left _ h
  | some v =>
    by_cases hv : v ≠ pyStrip t.translation
    · simp only [mergeStep, hl, if_pos hv, setStore_keys]
      exact h
    · simp only [mergeStep, hl, if_neg hv]
      exact h

theorem mergeStep_store_length (acc : MergeResult) (t : Item) :
    acc.store.length ≤ (mergeStep acc t).store.length := by
  cases hl : lookupStore acc.store t.key with
  | none =>
    simp only [mergeStep, hl, List.length_append]
    omega
  | some v =>
    by_cases hv : v ≠ pyStrip t.translation
    · simp only [mergeStep, hl, if_pos hv, setStore_length]
      exact le_refl _
    · simp only [mergeStep, hl, if_neg hv]
      exact le_refl _

theorem mergeStep_keys_nodup (acc : MergeResult) (t : Item)
    (h : (acc.store.map Prod.fst).Nodup) :
    ((mergeStep acc t).store.map Prod.fst).Nodup := by
  cases hl : lookupStore acc.store t.key with
  | none =>
    simp only [mergeStep, hl, List.map_append]
    rw [List.nodup_append]
    refine ⟨h, List.nodup_singleton _, ?_⟩
    intro x hx hx2
    simp at hx2
    subst hx2
    exact (lookupStore_none_iff _ _).mp hl hx
  | some v =>
    by_cases hv : v ≠ pyStrip t.translation
    · simp only [mergeStep, hl, if_pos hv, setStore_keys]
      exact h
    · simp only [mergeStep, hl, if_neg hv]
      exact h

theorem foldl_mergeStep_keys (L : List Item) (acc : MergeResult) (k : String)
    (h : k ∈ acc.store.map Prod.fst) :
    k ∈ (L.foldl mergeStep acc).store.map Prod.fst := by
  induction L generalizing acc with
  | nil => exact h
  | cons t ts ih => exact ih _ (mergeStep_keys_sub acc t k h)

theorem foldl_mergeStep_length (L : List Item) (acc : MergeResult) :
    acc.store.length ≤ (L.foldl mergeStep acc).store.length := by
  induction L generalizing acc with
  | nil => exact le_refl _
  | cons t ts ih => exact le_trans (mergeStep_store_length acc t) (ih _)

theorem foldl_mergeStep_nodup (L : List Item) (acc : MergeResult)
    (h : (acc.store.map Prod.fst).Nodup) :
    ((L.foldl mergeStep acc).store.map Prod.fst).Nodup := by
  induction L generalizing acc with
  | nil => exact h
  | cons t ts ih => exact ih _ (mergeStep_keys_nodup acc t h)

theorem foldl_mergeStep_other (L : List Item) (acc : MergeResult) (k : String)
    (h : ∀ t ∈ L, t.key ≠ k) :
    lookupStore (L.foldl mergeStep acc).store k = lookupStore acc.store k := by
  induction L generalizing acc with
  | nil => rfl
  | cons t ts ih =>
    rw [List.foldl_cons, ih _ (fun u hu => h u (List.mem_cons_of_mem _ hu))]
    exact mergeStep_other acc t k (h t (List.mem_cons_self _ _))

theorem foldl_mergeStep_binding (L : List Item) (acc : MergeResult)
    (hnd : (L.map Item.key).Nodup) :
    ∀ t ∈ L, lookupStore (L.foldl mergeStep acc).store t.key
      = some (pyStrip t.translation) := by
  induction L generalizing acc with
  | nil => intro t ht; cases ht
  | cons u us ih =>
    rw [List.map_cons, List.nodup_cons] at hnd
    intro t ht
    rcases List.mem_cons.mp ht with rfl | hmem
    · rw [List.foldl_cons]
      rw [foldl_mergeStep_other us _ t.key
        (fun x hx hc => hnd.1 (hc ▸ List.mem_map_of_mem Item.key hx))]
      exact mergeStep_binding acc t
    · rw [List.foldl_cons]
      exact ih _ hnd.2 t hmem

theorem foldl_mergeStep_unchanged (L : List Item) (S : List (String × String))
    (n u c : Nat)
    (h : ∀ t ∈ L, lookupStore S t.key = some (pyStrip t.translation)) :
    L.foldl mergeStep ⟨S, n, u, c⟩ = ⟨S, n, u, c + L.length⟩ := by
  induction L generalizing c with
  | nil => simp
  | cons t ts ih =>
    rw [List.foldl_cons]
    have hstep : mergeStep ⟨S, n, u, c⟩ t = ⟨S, n, u, c + 1⟩ := by
      simp [mergeStep, h t (List.mem_cons_self _ _)]
    rw [hstep, ih (c + 1) (fun x hx => h x (List.mem_cons_of_mem _ hx))]
    rw [List.length_cons]
    congr 1
    omega

theorem merge_translations_eq (existing : List (String × String)) (A : List Item) :
    merge_translations existing A
      = { (validItems A).foldl mergeStep ⟨existing, 0, 0, 0⟩ with
          store := List.insertionSort storeLe
            ((validItems A).foldl mergeStep ⟨existing, 0, 0, 0⟩).store } := rfl

theorem lookupStore_eq_of_mem_nodup (s : List (String × String)) (k v : String)
    (hnd : (s.map Prod.fst).Nodup) (hm : (k, v) ∈ s) : lookupStore s k = some v := by
  induction s with
  | nil => cases hm
  | cons kv rest ih =>
    rw [List.map_cons, List.nodup_cons] at hnd
    rcases List.mem_cons.mp hm with rfl | hmem
    · simp [lookupStore]
    · unfold lookupStore
      by_cases hk : kv.1 = k
      · exfalso
        apply hnd.1
        rw [hk]
        have : (k, v).1 ∈ rest.map Prod.fst := List.mem_map_of_mem Prod.fst hmem
        exact this
      · rw [if_neg hk]
        exact ih hnd.2 hmem

theorem lookupStore_perm (s s' : List (String × String)) (hp : s.Perm s')
    (hnd : (s.map Prod.fst).Nodup) (k : String) :
    lookupStore s' k = lookupStore s k := by
  cases h : lookupStore s k with
  | none =>
    rw [lookupStore_none_iff] at h ⊢
    intro hc
    exact h (((hp.map Prod.fst).mem_iff).mpr hc)
  | some v =>
    have hm := mem_of_lookupStore_eq_some _ _ _ h
    have hnd' : (s'.map Prod.fst).Nodup := ((hp.map Prod.fst).nodup_iff).mp hnd
    exact lookupStore_eq_of_mem_nodup s' k v hnd' (hp.mem_iff.mp hm)

/-- Claim C2: merge never removes a key, every key of the existing store
    is a key of the merged store and the store never shrinks; and merge
    is idempotent: re-merging the same accepted set into the merged store
    returns the identical store and counts zero new and zero updated,
    every accepted item counting as unchanged.  The hypotheses are the
    dict and job invariants of the code: the existing store and the
    accepted set have distinct keys. -/
theorem C2_merge_monotone_idempotent :
    ∀ (existing : List (String × String)) (A : List Item),
      (existing.map Prod.fst).Nodup →
      ((validItems A).map Item.key).Nodup →
      (∀ k ∈ existing.map Prod.fst,
          k ∈ (merge_translations existing A).store.map Prod.fst)
      ∧ existing.length ≤ (merge_translations existing A).store.length
      ∧ merge_translations (merge_translations existing A).store A
          = ⟨(merge_translations existing A).store, 0, 0, (validItems A).length⟩ := by
  intro existing A hex hA
  have hstore : (merge_translations existing A).store
      = List.insertionSort storeLe
          ((validItems A).foldl mergeStep ⟨existing, 0, 0, 0⟩).store := rfl
  have hperm : List.Perm
      (List.insertionSort storeLe
        ((validItems A).foldl mergeStep ⟨existing, 0, 0, 0⟩).store)
      ((validItems A).foldl mergeStep ⟨existing, 0, 0, 0⟩).store :=
    List.perm_insertionSort storeLe _
  refine ⟨?_, ?_, ?_⟩
  · intro k hk
    rw [hstore]
    exact ((hperm.map Prod.fst).mem_iff).mpr (foldl_mergeStep_keys _ _ _ hk)
  · rw [hstore, hperm.length_eq]
    exact foldl_mergeStep_length (validItems A) ⟨existing, 0, 0, 0⟩
  · have hndF : ((((validItems A).foldl mergeStep
        ⟨existing, 0, 0, 0⟩).store).map Prod.fst).Nodup :=
      foldl_mergeStep_nodup _ _ hex
    have hbind : ∀ t ∈ validItems A,
        lookupStore (merge_translations existing A).store t.key
          = some (pyStrip t.translation) := by
      intro t ht
      rw [hstore, lookupStore_perm _ _ hperm.symm hndF]
      exact foldl_mergeStep_binding _ _ hA t ht
    have hsorted : List.Sorted storeLe
        (List.insertionSort storeLe ((validItems A).foldl mergeStep
          ⟨existing, 0, 0, 0⟩).store) :=
      List.sorted_insertionSort storeLe _
    have hsecond := foldl_mergeStep_unchanged (validItems A)
      (merge_translations existing A).store 0 0 0 hbind
    have hidem : List.insertionSort storeLe (merge_translations existing A).store
        = (merge_translations existing A).store := by
      rw [hstore]
      exact List.Sorted.insertionSort_eq hsorted
    rw [merge_translations_eq (merge_translations existing A).store A, hsecond]
    simp [hidem]

/-- Witness for C2: the merge facts at a concrete two-entry store and a
    concrete singleton accepted set. -/
theorem C2_witness :
    (∀ k ∈ ([("b", "y"), ("a", "x")] : List (String × String)).map Prod.fst,
        k ∈ (merge_translations [("b", "y"), ("a", "x")]
          [⟨"c", [], " z "⟩]).store.map Prod.fst)
    ∧ ([("b", "y"), ("a", "x")] : List (String × String)).length
        ≤ (merge_translations [("b", "y"), ("a", "x")] [⟨"c", [], " z "⟩]).store.length
    ∧ merge_translations
        (merge_translations [("b", "y"), ("a", "x")] [⟨"c", [], " z "⟩]).store
        [⟨"c", [], " z "⟩]
        = ⟨(merge_translations [("b", "y"), ("a", "x")] [⟨"c", [], " z "⟩]).store, 0, 0,
            (validItems [⟨"c", [], " z "⟩]).length⟩ :=
  C2_merge_monotone_idempotent [("b", "y"), ("a", "x")] [⟨"c", [], " z "⟩]
    (by decide) (by decide)
